import Mathlib

/-!
Verification development for the `router` repository: a shallow embedding of
the trie-backed HTTP multiplexer (`proxymux`/`triemux`) and of the route
reload pipeline of `router.go`, together with theorems settling the frozen
claims about the specification.

Modelling conventions:
* Go strings are modelled as `String`; where the code manipulates a string
  character by character (`splitpath`) we work on `String.data`, the
  underlying `List Char`.
* The external dependency `github.com/nickstenning/trie` is a map from
  `[]string` keys to values with `Set` (overwrite) and `Get` (exact lookup);
  it is modelled as an association list where `Set` prepends and `Get`
  returns the first hit, which realises exactly the overwrite semantics.
  The only values ever stored are `muxEntry` records (`Mux.Register` and
  `Mux.Handle` are the only writers), so the trie is modelled with value
  type `muxEntry` and the impossible type-assertion-failure branch of
  `findlongestmatch` is dropped.
* The `for len(copypath) >= 0` loop of `findlongestmatch` has an always-true
  guard; its body is embedded verbatim as the step function `loopBody` on a
  loop state, and `findlongestmatch` runs that body `len(origpath) + 1`
  times, which is proved sufficient for the loop to have finished.
* `net/url.Parse` belongs to the Go standard library and is kept abstract:
  reload-pipeline definitions take a `parse : String → Option URL` argument.
* The panic/recover control flow of `ReloadRoutes` is modelled with
  `Except`: every `panic(err)` site produces `Except.error`, and the
  `recover` handler that restores the saved mux is the `Except.error` branch
  of `ReloadRoutes`.
-/

/-- A path segment (one Go string between slashes), and a trie key. -/
abbrev Seg := List Char

abbrev Key := List Seg

/-- The value stored at a trie node.  Go: `type muxEntry struct { prefix bool;
backendId int }`.  The Go field `prefix` is called `pfx` here because the word
is reserved in this development. -/
structure muxEntry where
  pfx : Bool
  backendId : Nat
deriving DecidableEq

/-- The Go zero value `muxEntry{}` returned by `findlongestmatch` on a miss. -/
def muxEntry.zero : muxEntry := ⟨false, 0⟩

/-- Model of `github.com/nickstenning/trie`: a finite map from keys to
`muxEntry` values. -/
abbrev Trie := List (Key × muxEntry)

/-- `trie.Get`: exact lookup, first (most recent) binding wins. -/
def Trie.get : Trie → Key → Option muxEntry
  | [], _ => none
  | (k, v) :: rest, key => if k = key then some v else Trie.get rest key

/-- `trie.Set`: overwrite the binding at `key` (prepending shadows any
earlier binding). -/
def Trie.set (t : Trie) (key : Key) (v : muxEntry) : Trie :=
  (key, v) :: t

/-- `splitpath`: strip all leading `'/'` characters. -/
def stripSlashes : List Char → List Char
  | [] => []
  | c :: rest => if c = '/' then stripSlashes rest else c :: rest

/-- `strings.Split(s, "/")` on the character list of a string: the (possibly
empty) chunks between `'/'` separators; `Split` of the empty string is
`[""]`. -/
def splitOnSlash : List Char → List Seg
  | [] => [[]]
  | c :: rest =>
    if c = '/' then [] :: splitOnSlash rest
    else
      match splitOnSlash rest with
      | [] => [[c]]
      | s :: ss => (c :: s) :: ss

/-- `splitpath` from `router.go`: strip leading slashes; the empty remainder
becomes the empty key, anything else is split on `'/'`. -/
def splitpath (path : String) : Key :=
  if stripSlashes path.data = [] then [] else splitOnSlash (stripSlashes path.data)

/-- State of the `for len(copypath) >= 0` loop in `findlongestmatch`:
either still running with the current `copypath`, or finished with the
result of the function. -/
inductive LoopState where
  | running (copypath : Key)
  | done (result : muxEntry × Bool)
deriving DecidableEq

/-- One iteration of the body of the `findlongestmatch` loop.  The guard
`len(copypath) >= 0` is always true, so a `running` state always executes the
body; `return` and `break` statements produce `done` states (`break` leads to
the final `return muxEntry{}, false`). -/
def loopBody (t : Trie) (origpath : Key) : LoopState → LoopState
  | LoopState.running copypath =>
    match Trie.get t copypath with
    | some ent =>
      if copypath.length = origpath.length then LoopState.done (ent, true)
      else if ent.pfx then LoopState.done (ent, true)
      else if 0 < copypath.length then LoopState.running copypath.dropLast
      else LoopState.done (muxEntry.zero, false)
    | none =>
      if 0 < copypath.length then LoopState.running copypath.dropLast
      else LoopState.done (muxEntry.zero, false)
  | LoopState.done r => LoopState.done r

/-- Read the result out of a finished loop state.  The `running` branch is
never reached after `len(origpath) + 1` iterations (see the termination
theorem); its value is the only other `return` of the function. -/
def loopExtract : LoopState → muxEntry × Bool
  | LoopState.done r => r
  | LoopState.running _ => (muxEntry.zero, false)

/-- The `findlongestmatch` loop started at `copypath`, run to completion. -/
def runFrom (t : Trie) (origpath copypath : Key) : muxEntry × Bool :=
  loopExtract ((loopBody t origpath)^[copypath.length + 1] (LoopState.running copypath))

/-- `findlongestmatch` from `router.go`: longest-match search of the trie,
starting from the full split path. -/
def findlongestmatch (t : Trie) (path : String) : muxEntry × Bool :=
  runFrom t (splitpath path) (splitpath path)

/-- A parsed backend URL (`net/url.URL`), kept opaque. -/
abbrev URL := String

/-- `httputil.NewSingleHostReverseProxy(target)` with its transport tweak:
the handler is determined by its target URL. -/
structure ReverseProxy where
  target : URL
deriving DecidableEq

/-- Generic association-list lookup, modelling a Go map read. -/
def assocFind {α β : Type} [DecidableEq α] : List (α × β) → α → Option β
  | [], _ => none
  | (k, v) :: rest, key => if k = key then some v else assocFind rest key

/-- `proxymux.Mux`: backend table, id counter and route trie. -/
structure Mux where
  nextBackendId : Nat
  backends : List (Nat × ReverseProxy)
  trie : Trie
deriving DecidableEq

/-- `NewMux`. -/
def NewMux : Mux := ⟨0, [], []⟩

/-- `Mux.AddBackend`: allocate the next id for a proxy on `target`. -/
def Mux.AddBackend (mux : Mux) (target : URL) : Nat × Mux :=
  (mux.nextBackendId,
    ⟨mux.nextBackendId + 1, (mux.nextBackendId, ⟨target⟩) :: mux.backends, mux.trie⟩)

/-- `Mux.GetBackend`. -/
def Mux.GetBackend (mux : Mux) (backendId : Nat) : Option ReverseProxy :=
  assocFind mux.backends backendId

/-- `Mux.Lookup`: project `findlongestmatch` onto (backend id, ok). -/
def Mux.Lookup (mux : Mux) (path : String) : Nat × Bool :=
  ((findlongestmatch mux.trie path).1.backendId, (findlongestmatch mux.trie path).2)

/-- `Mux.Register`: install a route at the split path. -/
def Mux.Register (mux : Mux) (path : String) (isPfx : Bool) (backendId : Nat) : Mux :=
  ⟨mux.nextBackendId, mux.backends, Trie.set mux.trie (splitpath path) ⟨isPfx, backendId⟩⟩

/-- The response the mux produces for a request: `http.NotFound` or the
chosen backend proxy serving the request. -/
inductive Response where
  | notFound
  | proxied (p : ReverseProxy)
deriving DecidableEq

/-- The Go function `http.NotFound` replies with status 404. -/
def notFoundStatus : Nat := 404

/-- `Mux.ServeHTTP`: look up the path, 404 on a lookup or backend miss. -/
def Mux.ServeHTTP (mux : Mux) (path : String) : Response :=
  if (mux.Lookup path).2 then
    match mux.GetBackend (mux.Lookup path).1 with
    | some p => Response.proxied p
    | none => Response.notFound
  else Response.notFound

/-- Modelled from the spec: `triemux.Mux.Handle`, called by `loadRoutes`, is
not under `src/` (only its caller is).  Per spec §4.2 and §4.3 steps 4–5 it
stores the given handler in the backend table under a freshly allocated id
and installs the route at the path with the given flag. -/
def Mux.Handle (mux : Mux) (path : String) (isPfx : Bool) (h : ReverseProxy) : Mux :=
  ⟨mux.nextBackendId + 1, (mux.nextBackendId, h) :: mux.backends,
    Trie.set mux.trie (splitpath path) ⟨isPfx, mux.nextBackendId⟩⟩

/-- `Application` record from the applications collection. -/
structure Application where
  applicationId : String
  backendURL : String
deriving DecidableEq

/-- `Route` record from the routes collection. -/
structure Route where
  incomingPath : String
  applicationId : String
  routeType : String
deriving DecidableEq

/-- An `Iterator` drained by a reload: the records it yields, and the value
of `Err()` once `Next` has returned false. -/
structure Iterator (α : Type) where
  records : List α
  err : Option String
deriving DecidableEq

/-- A `Storage` as observed by one reload: the result of `Open()`, and the
results of `Applications()` and `Routes()`. -/
structure Storage where
  openErr : Option String
  applications : Except String (Iterator Application)
  routes : Except String (Iterator Route)

/-- The applications map built by the `loadApplications` loop: URL-parse
failures are logged and skipped, successful parses insert (overwriting any
earlier binding for the same id). -/
def buildApps (parse : String → Option URL) : List Application → List (String × ReverseProxy) → List (String × ReverseProxy)
  | [], apps => apps
  | a :: rest, apps =>
    match parse a.backendURL with
    | none => buildApps parse rest apps
    | some u => buildApps parse rest ((a.applicationId, ⟨u⟩) :: apps)

/-- `loadApplications`: drain the applications iterator, then `panic` (here:
`Except.error`) if the iterator finished with an error. -/
def loadApplications (parse : String → Option URL) (iter : Iterator Application) :
    Except String (List (String × ReverseProxy)) :=
  match iter.err with
  | some e => Except.error e
  | none => Except.ok (buildApps parse iter.records [])

/-- The `loadRoutes` loop: routes whose application id has no backend are
logged and skipped, the rest are handed to `Mux.Handle` with
`prefix := (routeType == "prefix")`. -/
def applyRoutes (apps : List (String × ReverseProxy)) : List Route → Mux → Mux
  | [], mux => mux
  | r :: rest, mux =>
    match assocFind apps r.applicationId with
    | none => applyRoutes apps rest mux
    | some h => applyRoutes apps rest (mux.Handle r.incomingPath (r.routeType == "prefix") h)

/-- `loadRoutes`: drain the routes iterator into the mux, then `panic`
(here: `Except.error`) if the iterator finished with an error. -/
def loadRoutes (apps : List (String × ReverseProxy)) (iter : Iterator Route) (mux : Mux) :
    Except String Mux :=
  match iter.err with
  | some e => Except.error e
  | none => Except.ok (applyRoutes apps iter.records mux)

/-- The body of `ReloadRoutes` up to the final pointer flip: every `panic`
site becomes `Except.error`. -/
def reloadAttempt (parse : String → Option URL) (stor : Storage) : Except String Mux :=
  match stor.openErr with
  | some e => Except.error e
  | none =>
    match stor.applications with
    | Except.error e => Except.error e
    | Except.ok appIter =>
      match loadApplications parse appIter with
      | Except.error e => Except.error e
      | Except.ok apps =>
        match stor.routes with
        | Except.error e => Except.error e
        | Except.ok routeIter => loadRoutes apps routeIter NewMux

/-- `Router`: the active mux and the storage it reloads from. -/
structure Router where
  mux : Mux
  stor : Storage

/-- `NewRouter`: a fresh router holds an empty mux until the first reload. -/
def NewRouter (stor : Storage) : Router := ⟨NewMux, stor⟩

/-- `ReloadRoutes`: on success the new mux is published; on any panic the
deferred `recover` restores the saved old mux. -/
def ReloadRoutes (parse : String → Option URL) (rt : Router) : Router :=
  match reloadAttempt parse rt.stor with
  | Except.ok newmux => ⟨newmux, rt.stor⟩
  | Except.error _ => ⟨rt.mux, rt.stor⟩

/-- `Router.ServeHTTP` delegates to the active mux. -/
def Router.ServeHTTP (rt : Router) (path : String) : Response :=
  Mux.ServeHTTP rt.mux path

/-- The routes of a reload batch whose application identifier has a
registered backend — the wording of the spec for the K routes of claim C6 that are
actually installed. -/
def validRoutes (apps : List (String × ReverseProxy)) (l : List Route) : List Route :=
  l.filter (fun r => (assocFind apps r.applicationId).isSome)

/-! ### Helper lemmas about the search loop -/

lemma loopBody_done (t : Trie) (orig : Key) (r : muxEntry × Bool) (n : Nat) :
    (loopBody t orig)^[n] (LoopState.done r) = LoopState.done r := by
  induction n with
  | zero => rfl
  | succ n ih => rw [Function.iterate_succ_apply]; exact ih

lemma runFrom_done (t : Trie) (orig copy : Key) (r : muxEntry × Bool)
    (h : loopBody t orig (LoopState.running copy) = LoopState.done r) :
    runFrom t orig copy = r := by
  unfold runFrom
  rw [Function.iterate_succ_apply, h, loopBody_done]
  rfl

lemma runFrom_drop (t : Trie) (orig copy : Key)
    (h : loopBody t orig (LoopState.running copy) = LoopState.running copy.dropLast)
    (hne : copy ≠ []) :
    runFrom t orig copy = runFrom t orig copy.dropLast := by
  have hlen : copy.length = copy.dropLast.length + 1 := by
    have h0 : 0 < copy.length := List.length_pos.mpr hne
    rw [List.length_dropLast]
    omega
  unfold runFrom
  rw [Function.iterate_succ_apply, h, hlen]

lemma take_dropLast {α : Type} (l : List α) (m : Nat) (h : m ≤ l.length) :
    (l.take m).dropLast = l.take (m - 1) := by
  rw [List.dropLast_eq_take, List.length_take, List.take_take]
  congr 1
  omega

/-- On the empty trie the search always misses with the zero entry. -/
lemma runFrom_empty (orig : Key) : ∀ n copy, List.length copy = n →
    runFrom ([] : Trie) orig copy = (muxEntry.zero, false) := by
  intro n
  induction n with
  | zero =>
    intro copy hlen
    have hc : copy = [] := List.length_eq_zero.mp hlen
    subst hc
    exact runFrom_done _ _ _ _ (by simp [loopBody, Trie.get])
  | succ n ih =>
    intro copy hlen
    have hne : copy ≠ [] := by
      intro h; rw [h] at hlen; simp at hlen
    have hstep : loopBody ([] : Trie) orig (LoopState.running copy) =
        LoopState.running copy.dropLast := by
      simp only [loopBody, Trie.get]
      rw [if_pos]
      omega
    rw [runFrom_drop _ _ _ hstep hne]
    exact ih copy.dropLast (by rw [List.length_dropLast, hlen]; omega)

/-- An entry at the full path is returned unconditionally. -/
lemma runFrom_exact (t : Trie) (orig : Key) (e : muxEntry)
    (h : Trie.get t orig = some e) :
    runFrom t orig orig = (e, true) := by
  exact runFrom_done _ _ _ _ (by simp [loopBody, h])

/-- Whenever the search reports a miss, the accompanying entry is the zero
value. -/
lemma runFrom_miss_zero (t : Trie) (orig : Key) : ∀ n copy, List.length copy = n →
    (runFrom t orig copy).2 = false → (runFrom t orig copy).1 = muxEntry.zero := by
  intro n
  induction n using Nat.strong_induction_on with
  | _ n ih =>
    intro copy hlen
    cases hc : Trie.get t copy with
    | some ent =>
      by_cases hfull : copy.length = orig.length
      · have hres : runFrom t orig copy = (ent, true) :=
          runFrom_done _ _ _ _ (by simp [loopBody, hc, hfull])
        rw [hres]
        intro h; cases h
      · by_cases hp : ent.pfx
        · have hres : runFrom t orig copy = (ent, true) :=
            runFrom_done _ _ _ _ (by simp [loopBody, hc, hfull, hp])
          rw [hres]
          intro h; cases h
        · by_cases h0 : copy = []
          · have hres : runFrom t orig copy = (muxEntry.zero, false) := by
              subst h0
              exact runFrom_done _ _ _ _ (by
                simp only [loopBody, hc]
                rw [if_neg hfull, if_neg (by simpa using hp), if_neg (by simp)])
            rw [hres]
            intro _; rfl
          · have hpos : 0 < copy.length := List.length_pos.mpr h0
            have hstep : loopBody t orig (LoopState.running copy) =
                LoopState.running copy.dropLast := by
              simp only [loopBody, hc]
              rw [if_neg hfull, if_neg (by simpa using hp), if_pos hpos]
            rw [runFrom_drop _ _ _ hstep h0]
            exact ih copy.dropLast.length (by rw [List.length_dropLast]; omega)
              copy.dropLast rfl
    | none =>
      by_cases h0 : copy = []
      · have hres : runFrom t orig copy = (muxEntry.zero, false) := by
          subst h0
          exact runFrom_done _ _ _ _ (by simp [loopBody, hc])
        rw [hres]
        intro _; rfl
      · have hpos : 0 < copy.length := List.length_pos.mpr h0
        have hstep : loopBody t orig (LoopState.running copy) =
            LoopState.running copy.dropLast := by
          simp only [loopBody, hc]
          rw [if_pos hpos]
        rw [runFrom_drop _ _ _ hstep h0]
        exact ih copy.dropLast.length (by rw [List.length_dropLast]; omega)
          copy.dropLast rfl

lemma Trie.get_set_eq (t : Trie) (k : Key) (v : muxEntry) :
    Trie.get (Trie.set t k v) k = some v := by
  simp [Trie.get, Trie.set]

lemma Trie.get_set_ne (t : Trie) (k k2 : Key) (v : muxEntry) (h : k2 ≠ k) :
    Trie.get (Trie.set t k v) k2 = Trie.get t k2 := by
  simp only [Trie.get, Trie.set]
  rw [if_neg (fun hk => h hk.symm)]

/-- Two prefixes of the same list with the same length are equal. -/
lemma take_eq_of_append {α : Type} (K r l : List α) (h : K ++ r = l) :
    l.take K.length = K := by
  rw [← h, List.take_left]

/-- The search, started at the length-`m` prefix of `orig`, returns the entry
of the longest prefix-flagged ancestor `K`, provided no exact entry sits at
`orig` itself, `K` is still at or below the start point, and no
prefix-flagged entry lives at a longer ancestor. -/
lemma runFrom_longest (t : Trie) (orig K : Key) (e : muxEntry)
    (horig : ∀ e1, Trie.get t orig = some e1 → e1.pfx = true)
    (hK : Trie.get t K = some e) (hpfx : e.pfx = true)
    (hanc : ∃ rr, K ++ rr = orig)
    (hmax : ∀ K1 r1 e1, K1 ++ r1 = orig → Trie.get t K1 = some e1 → e1.pfx = true →
      K1.length ≤ K.length) :
    ∀ m, K.length ≤ m → m ≤ orig.length → runFrom t orig (orig.take m) = (e, true) := by
  obtain ⟨rr, hrr⟩ := hanc
  have hKtake : orig.take K.length = K := take_eq_of_append K rr orig hrr
  have hKlen : K.length ≤ orig.length := by
    rw [← hrr, List.length_append]; omega
  intro m
  induction m using Nat.strong_induction_on with
  | _ m ih =>
    intro hkm hmlen
    have hcopylen : (orig.take m).length = m := by
      rw [List.length_take]; omega
    by_cases hfull : m = orig.length
    · -- the start point is the full path
      have hcopy : orig.take m = orig := by rw [hfull, List.take_length]
      rw [hcopy]
      cases hc : Trie.get t orig with
      | some ent =>
        have hent : ent.pfx = true := horig ent hc
        have hle : orig.length ≤ K.length := hmax orig [] ent (by simp) hc hent
        have hKorig : K = orig := by
          rw [← hKtake]
          have : K.length = orig.length := le_antisymm hKlen hle
          rw [this, List.take_length]
        rw [hKorig] at hK
        exact runFrom_exact t orig e hK
      | none =>
        have hKne : K ≠ orig := by
          intro h; rw [h, hc] at hK; cases hK
        have hKlt : K.length < orig.length := by
          rcases Nat.lt_or_ge K.length orig.length with h | h
          · exact h
          · exfalso
            apply hKne
            rw [← hKtake]
            have : K.length = orig.length := le_antisymm hKlen h
            rw [this, List.take_length]
        have hone : orig ≠ [] := by
          intro h
          rw [h] at hKlt
          simp at hKlt
        have hstep : loopBody t orig (LoopState.running orig) =
            LoopState.running orig.dropLast := by
          simp only [loopBody, hc]
          rw [if_pos (List.length_pos.mpr hone)]
        rw [runFrom_drop _ _ _ hstep hone]
        have hdl : orig.dropLast = orig.take (m - 1) := by
          rw [List.dropLast_eq_take, hfull]
        rw [hdl]
        exact ih (m - 1) (by omega) (by omega) (by omega)
    · have hmlt : m < orig.length := lt_of_le_of_ne hmlen hfull
      have hnefull : (orig.take m).length ≠ orig.length := by omega
      cases hc : Trie.get t (orig.take m) with
      | some ent =>
        by_cases hp : ent.pfx
        · have hle : m ≤ K.length := by
            have := hmax (orig.take m) (orig.drop m) ent (List.take_append_drop m orig) hc hp
            omega
          have hKcopy : K = orig.take m := by
            rw [← hKtake]
            congr 1
            omega
          have hgete : Trie.get t (orig.take m) = some e := by
            rw [← hKcopy]; exact hK
          exact runFrom_done _ _ _ _ (by
            simp only [loopBody, hgete]
            rw [if_neg hnefull, if_pos hpfx])
        · -- exact entry at a proper ancestor: passed over
          have hKne : K ≠ orig.take m := by
            intro h
            rw [← h, hK] at hc
            cases hc
            exact hp hpfx
          have hKlt : K.length < m := by
            rcases Nat.lt_or_ge K.length m with h | h
            · exact h
            · exfalso
              apply hKne
              rw [← hKtake]
              congr 1
              omega
          have hne0 : orig.take m ≠ [] := by
            intro h
            have := congrArg List.length h
            rw [hcopylen] at this
            simp at this
            omega
          have hstep : loopBody t orig (LoopState.running (orig.take m)) =
              LoopState.running (orig.take m).dropLast := by
            simp only [loopBody, hc]
            rw [if_neg hnefull, if_neg (by simpa using hp),
              if_pos (List.length_pos.mpr hne0)]
          rw [runFrom_drop _ _ _ hstep hne0, take_dropLast orig m (by omega)]
          exact ih (m - 1) (by omega) (by omega) (by omega)
      | none =>
        have hKne : K ≠ orig.take m := by
          intro h
          rw [← h, hK] at hc
          cases hc
        have hKlt : K.length < m := by
          rcases Nat.lt_or_ge K.length m with h | h
          · exact h
          · exfalso
            apply hKne
            rw [← hKtake]
            congr 1
            omega
        have hne0 : orig.take m ≠ [] := by
          intro h
          have := congrArg List.length h
          rw [hcopylen] at this
          simp at this
          omega
        have hstep : loopBody t orig (LoopState.running (orig.take m)) =
            LoopState.running (orig.take m).dropLast := by
          simp only [loopBody, hc]
          rw [if_pos (List.length_pos.mpr hne0)]
        rw [runFrom_drop _ _ _ hstep hne0, take_dropLast orig m (by omega)]
        exact ih (m - 1) (by omega) (by omega) (by omega)

/-- Two tries that agree everywhere except at a key `P` that is not the full
path and that holds (in either trie) no prefix-flagged entry produce the same
search result from any prefix of `orig`. -/
lemma runFrom_agree (t t2 : Trie) (P orig : Key)
    (hagree : ∀ k, k ≠ P → Trie.get t2 k = Trie.get t k)
    (ht : ∀ e, Trie.get t P = some e → e.pfx = false)
    (ht2 : ∀ e, Trie.get t2 P = some e → e.pfx = false)
    (hne : P ≠ orig) :
    ∀ m, m ≤ orig.length → runFrom t2 orig (orig.take m) = runFrom t orig (orig.take m) := by
  intro m
  induction m using Nat.strong_induction_on with
  | _ m ih =>
    intro hmlen
    have hcopylen : (orig.take m).length = m := by
      rw [List.length_take]; omega
    by_cases hcp : orig.take m = P
    · -- the loop is standing on P: both tries skip it the same way
      have hmlt : m < orig.length := by
        rcases Nat.lt_or_ge m orig.length with h | h
        · exact h
        · exfalso
          apply hne
          rw [← hcp]
          have : m = orig.length := by omega
          rw [this, List.take_length]
      have hnefull : (orig.take m).length ≠ orig.length := by omega
      by_cases h0 : m = 0
      · -- P is the empty key and the loop is at its last iteration
        have hnil : orig.take m = [] := by
          rw [h0, List.take_zero]
        have step2 : runFrom t2 orig (orig.take m) = (muxEntry.zero, false) := by
          apply runFrom_done
          cases hc2 : Trie.get t2 (orig.take m) with
          | some ent =>
            have : ent.pfx = false := ht2 ent (hcp ▸ hc2)
            simp only [loopBody, hc2]
            rw [if_neg hnefull, if_neg (by simp [this]), if_neg (by rw [hnil]; simp)]
          | none =>
            simp only [loopBody, hc2]
            rw [if_neg (by rw [hnil]; simp)]
        have step1 : runFrom t orig (orig.take m) = (muxEntry.zero, false) := by
          apply runFrom_done
          cases hc1 : Trie.get t (orig.take m) with
          | some ent =>
            have : ent.pfx = false := ht ent (hcp ▸ hc1)
            simp only [loopBody, hc1]
            rw [if_neg hnefull, if_neg (by simp [this]), if_neg (by rw [hnil]; simp)]
          | none =>
            simp only [loopBody, hc1]
            rw [if_neg (by rw [hnil]; simp)]
        rw [step1, step2]
      · have hne0 : orig.take m ≠ [] := by
          intro h
          have := congrArg List.length h
          rw [hcopylen] at this
          simp at this
          omega
        have hpos : 0 < (orig.take m).length := List.length_pos.mpr hne0
        have step2 : loopBody t2 orig (LoopState.running (orig.take m)) =
            LoopState.running (orig.take m).dropLast := by
          cases hc2 : Trie.get t2 (orig.take m) with
          | some ent =>
            have : ent.pfx = false := ht2 ent (hcp ▸ hc2)
            simp only [loopBody, hc2]
            rw [if_neg hnefull, if_neg (by simp [this]), if_pos hpos]
          | none =>
            simp only [loopBody, hc2]
            rw [if_pos hpos]
        have step1 : loopBody t orig (LoopState.running (orig.take m)) =
            LoopState.running (orig.take m).dropLast := by
          cases hc1 : Trie.get t (orig.take m) with
          | some ent =>
            have : ent.pfx = false := ht ent (hcp ▸ hc1)
            simp only [loopBody, hc1]
            rw [if_neg hnefull, if_neg (by simp [this]), if_pos hpos]
          | none =>
            simp only [loopBody, hc1]
            rw [if_pos hpos]
        rw [runFrom_drop _ _ _ step2 hne0, runFrom_drop _ _ _ step1 hne0,
          take_dropLast orig m (by omega)]
        exact ih (m - 1) (by omega) (by omega)
    · -- off P: the tries agree, both loops branch identically
      have heq : Trie.get t2 (orig.take m) = Trie.get t (orig.take m) := hagree _ hcp
      cases hc : Trie.get t (orig.take m) with
      | some ent =>
        by_cases hfull : (orig.take m).length = orig.length
        · rw [runFrom_done _ _ _ (ent, true) (by simp [loopBody, heq, hc, hfull]),
            runFrom_done _ _ _ (ent, true) (by simp [loopBody, hc, hfull])]
        · by_cases hp : ent.pfx
          · rw [runFrom_done _ _ _ (ent, true)
                (by simp only [loopBody, heq, hc]; rw [if_neg hfull, if_pos hp]),
              runFrom_done _ _ _ (ent, true)
                (by simp only [loopBody, hc]; rw [if_neg hfull, if_pos hp])]
          · by_cases h0 : orig.take m = []
            · rw [runFrom_done _ _ _ (muxEntry.zero, false) (by
                  simp only [loopBody, heq, hc]
                  rw [if_neg hfull, if_neg (by simpa using hp), if_neg (by rw [h0]; simp)]),
                runFrom_done _ _ _ (muxEntry.zero, false) (by
                  simp only [loopBody, hc]
                  rw [if_neg hfull, if_neg (by simpa using hp), if_neg (by rw [h0]; simp)])]
            · have hpos : 0 < (orig.take m).length := List.length_pos.mpr h0
              have hm0 : m ≠ 0 := by
                intro h; apply h0; rw [h, List.take_zero]
              rw [runFrom_drop _ _ _ (by
                    simp only [loopBody, heq, hc]
                    rw [if_neg hfull, if_neg (by simpa using hp), if_pos hpos]) h0,
                runFrom_drop _ _ _ (by
                    simp only [loopBody, hc]
                    rw [if_neg hfull, if_neg (by simpa using hp), if_pos hpos]) h0,
                take_dropLast orig m (by omega)]
              exact ih (m - 1) (by omega) (by omega)
      | none =>
        by_cases h0 : orig.take m = []
        · rw [runFrom_done _ _ _ (muxEntry.zero, false) (by
              simp only [loopBody, heq, hc]
              rw [if_neg (by rw [h0]; simp)]),
            runFrom_done _ _ _ (muxEntry.zero, false) (by
              simp only [loopBody, hc]
              rw [if_neg (by rw [h0]; simp)])]
        · have hpos : 0 < (orig.take m).length := List.length_pos.mpr h0
          have hm0 : m ≠ 0 := by
            intro h; apply h0; rw [h, List.take_zero]
          rw [runFrom_drop _ _ _ (by
                simp only [loopBody, heq, hc]
                rw [if_pos hpos]) h0,
            runFrom_drop _ _ _ (by
                simp only [loopBody, hc]
                rw [if_pos hpos]) h0,
            take_dropLast orig m (by omega)]
          exact ih (m - 1) (by omega) (by omega)

/-- Inversion: a body iteration that stays `running` chopped the last
segment off a nonempty `copypath`. -/
lemma loopBody_running_inv (t : Trie) (orig copy c2 : Key)
    (h : loopBody t orig (LoopState.running copy) = LoopState.running c2) :
    c2 = copy.dropLast ∧ copy ≠ [] := by
  cases hc : Trie.get t copy with
  | some ent =>
    by_cases h1 : copy.length = orig.length
    · rw [show loopBody t orig (LoopState.running copy) = LoopState.done (ent, true) from by
        simp [loopBody, hc, h1]] at h
      cases h
    · by_cases h2 : ent.pfx
      · rw [show loopBody t orig (LoopState.running copy) = LoopState.done (ent, true) from by
          simp only [loopBody, hc]; rw [if_neg h1, if_pos h2]] at h
        cases h
      · by_cases h3 : 0 < copy.length
        · rw [show loopBody t orig (LoopState.running copy) =
              LoopState.running copy.dropLast from by
            simp only [loopBody, hc]
            rw [if_neg h1, if_neg (by simpa using h2), if_pos h3]] at h
          cases h
          exact ⟨rfl, by intro hnil; rw [hnil] at h3; simp at h3⟩
        · rw [show loopBody t orig (LoopState.running copy) =
              LoopState.done (muxEntry.zero, false) from by
            simp only [loopBody, hc]
            rw [if_neg h1, if_neg (by simpa using h2), if_neg h3]] at h
          cases h
  | none =>
    by_cases h3 : 0 < copy.length
    · rw [show loopBody t orig (LoopState.running copy) =
          LoopState.running copy.dropLast from by
        simp only [loopBody, hc]; rw [if_pos h3]] at h
      cases h
      exact ⟨rfl, by intro hnil; rw [hnil] at h3; simp at h3⟩
    · rw [show loopBody t orig (LoopState.running copy) =
          LoopState.done (muxEntry.zero, false) from by
        simp only [loopBody, hc]; rw [if_neg h3]] at h
      cases h

/-- Started on a `copypath` of length `n`, the loop is finished after at most
`n + 1` body iterations, with the result computed by `runFrom`. -/
lemma loop_reaches (t : Trie) (orig : Key) : ∀ n copy, List.length copy = n →
    (loopBody t orig)^[copy.length + 1] (LoopState.running copy) =
      LoopState.done (runFrom t orig copy) := by
  intro n
  induction n using Nat.strong_induction_on with
  | _ n ih =>
    intro copy hlen
    cases hs : loopBody t orig (LoopState.running copy) with
    | done r =>
      rw [Function.iterate_succ_apply, hs, loopBody_done, runFrom_done _ _ _ _ hs]
    | running c2 =>
      obtain ⟨hc2, hne⟩ := loopBody_running_inv t orig copy c2 hs
      subst hc2
      have hpos : 0 < copy.length := List.length_pos.mpr hne
      have hlen2 : copy.length = copy.dropLast.length + 1 := by
        rw [List.length_dropLast]; omega
      rw [Function.iterate_succ_apply, hs, runFrom_drop _ _ _ hs hne, hlen2]
      exact ih copy.dropLast.length (by rw [List.length_dropLast]; omega) copy.dropLast rfl

/-! ### Normalization lemmas for `splitpath` -/

lemma data_slash (P : String) : ("/" ++ P).data = '/' :: P.data := by
  rw [String.data_append]; rfl

lemma data_slash3 (P : String) : ("///" ++ P).data = '/' :: '/' :: '/' :: P.data := by
  rw [String.data_append]; rfl

lemma stripSlashes_slash (l : List Char) : stripSlashes ('/' :: l) = stripSlashes l := by
  simp [stripSlashes]

lemma splitpath_slash (P : String) : splitpath ("/" ++ P) = splitpath P := by
  unfold splitpath
  rw [data_slash, stripSlashes_slash]

lemma splitpath_slash3 (P : String) : splitpath ("///" ++ P) = splitpath P := by
  unfold splitpath
  rw [data_slash3, stripSlashes_slash, stripSlashes_slash, stripSlashes_slash]

/-! ### Reload pipeline helper lemmas -/

lemma buildApps_lookup_none (parse : String → Option URL) (i : String) :
    ∀ l apps, (∀ b ∈ l, b.applicationId = i → parse b.backendURL = none) →
      assocFind apps i = none → assocFind (buildApps parse l apps) i = none := by
  intro l
  induction l with
  | nil => intro apps _ h2; exact h2
  | cons a rest ih =>
    intro apps h1 h2
    cases hp : parse a.backendURL with
    | none =>
      simp only [buildApps, hp]
      exact ih apps (fun b hb => h1 b (List.mem_cons_of_mem a hb)) h2
    | some u =>
      simp only [buildApps, hp]
      apply ih _ (fun b hb => h1 b (List.mem_cons_of_mem a hb))
      have hne : a.applicationId ≠ i := by
        intro h
        have := h1 a (List.mem_cons_self a rest) h
        rw [hp] at this; cases this
      simp only [assocFind]
      rw [if_neg hne]
      exact h2

lemma buildApps_lookup_mono (parse : String → Option URL) (i : String) :
    ∀ l apps, assocFind apps i ≠ none → assocFind (buildApps parse l apps) i ≠ none := by
  intro l
  induction l with
  | nil => intro apps h2; exact h2
  | cons a rest ih =>
    intro apps h2
    cases hp : parse a.backendURL with
    | none => simp only [buildApps, hp]; exact ih apps h2
    | some u =>
      simp only [buildApps, hp]
      apply ih
      simp only [assocFind]
      by_cases hk : a.applicationId = i
      · rw [if_pos hk]; simp
      · rw [if_neg hk]; exact h2

lemma buildApps_lookup_some (parse : String → Option URL) :
    ∀ l apps b u, b ∈ l → parse b.backendURL = some u →
      assocFind (buildApps parse l apps) b.applicationId ≠ none := by
  intro l
  induction l with
  | nil => intro apps b u hb; cases hb
  | cons a rest ih =>
    intro apps b u hb hp
    rcases List.mem_cons.mp hb with hb | hb
    · subst hb
      simp only [buildApps, hp]
      apply buildApps_lookup_mono
      simp [assocFind]
    · cases hpa : parse a.backendURL with
      | none => simp only [buildApps, hpa]; exact ih apps b u hb hp
      | some u2 => simp only [buildApps, hpa]; exact ih _ b u hb hp

lemma applyRoutes_filter (apps : List (String × ReverseProxy)) :
    ∀ l mux, applyRoutes apps l mux = applyRoutes apps (validRoutes apps l) mux := by
  intro l
  induction l with
  | nil => intro mux; rfl
  | cons r rest ih =>
    intro mux
    cases h : assocFind apps r.applicationId with
    | none =>
      rw [show applyRoutes apps (r :: rest) mux = applyRoutes apps rest mux from by
        simp [applyRoutes, h]]
      rw [show validRoutes apps (r :: rest) = validRoutes apps rest from by
        simp [validRoutes, List.filter_cons, h]]
      exact ih mux
    | some hd =>
      rw [show applyRoutes apps (r :: rest) mux =
          applyRoutes apps rest (mux.Handle r.incomingPath (r.routeType == "prefix") hd) from by
        simp [applyRoutes, h]]
      rw [show validRoutes apps (r :: rest) = r :: validRoutes apps rest from by
        simp [validRoutes, List.filter_cons, h]]
      rw [show applyRoutes apps (r :: validRoutes apps rest) mux =
          applyRoutes apps (validRoutes apps rest)
            (mux.Handle r.incomingPath (r.routeType == "prefix") hd) from by
        simp [applyRoutes, h]]
      exact ih _

lemma length_valid_invalid (apps : List (String × ReverseProxy)) :
    ∀ l : List Route,
      (validRoutes apps l).length +
        (l.filter (fun r => (assocFind apps r.applicationId).isNone)).length = l.length := by
  intro l
  induction l with
  | nil => rfl
  | cons r rest ih =>
    cases hx : assocFind apps r.applicationId with
    | none =>
      simp only [validRoutes, List.filter_cons, hx] at ih ⊢
      simp only [Option.isSome_none, Option.isNone_none, List.length_cons, if_true, if_false,
        Bool.false_eq_true, cond_false, cond_true, reduceIte]
      omega
    | some v =>
      simp only [validRoutes, List.filter_cons, hx] at ih ⊢
      simp only [Option.isSome_some, Option.isNone_some, List.length_cons, if_true, if_false,
        Bool.false_eq_true, cond_false, cond_true, reduceIte]
      omega

lemma reloadAttempt_error (parse : String → Option URL) (stor : Storage)
    (h : stor.openErr ≠ none
      ∨ (∃ e, stor.applications = Except.error e)
      ∨ (∃ it, stor.applications = Except.ok it ∧ it.err ≠ none)
      ∨ (∃ e, stor.routes = Except.error e)
      ∨ (∃ it, stor.routes = Except.ok it ∧ it.err ≠ none)) :
    ∃ e, reloadAttempt parse stor = Except.error e := by
  cases ho : stor.openErr with
  | some e => exact ⟨e, by simp [reloadAttempt, ho]⟩
  | none =>
    cases ha : stor.applications with
    | error e => exact ⟨e, by simp [reloadAttempt, ho, ha]⟩
    | ok appIter =>
      cases hae : appIter.err with
      | some e => exact ⟨e, by simp [reloadAttempt, ho, ha, loadApplications, hae]⟩
      | none =>
        cases hr : stor.routes with
        | error e =>
          exact ⟨e, by simp [reloadAttempt, ho, ha, loadApplications, hae, hr]⟩
        | ok routeIter =>
          cases hre : routeIter.err with
          | some e =>
            exact ⟨e, by
              simp [reloadAttempt, ho, ha, loadApplications, hae, hr, loadRoutes, hre]⟩
          | none =>
            exfalso
            rcases h with h | ⟨e, h⟩ | ⟨it, h1, h2⟩ | ⟨e, h⟩ | ⟨it, h1, h2⟩
            · exact h ho
            · rw [ha] at h; cases h
            · rw [ha] at h1; cases h1; exact h2 hae
            · rw [hr] at h; cases h
            · rw [hr] at h1; cases h1; exact h2 hre

/-! ### Claim theorems -/

/-- Claim C1: for every request path R and every trie holding prefix routes
at ancestors of R, with no exact entry at R itself, `findlongestmatch`
returns the prefix route with the most path segments among those ancestors
(here `K`, maximal by `hmax` among prefix-flagged ancestors). -/
theorem claim1_longest_ancestor_wins (t : Trie) (path : String) (K rr : Key)
    (e : muxEntry)
    (hanc : K ++ rr = splitpath path)
    (hget : Trie.get t K = some e)
    (hpfx : e.pfx = true)
    (hnoexact : ∀ e1, Trie.get t (splitpath path) = some e1 → e1.pfx = true)
    (hmax : ∀ K1 r1 e1, K1 ++ r1 = splitpath path → Trie.get t K1 = some e1 →
      e1.pfx = true → K1.length ≤ K.length) :
    findlongestmatch t path = (e, true) := by
  have hKlen : K.length ≤ (splitpath path).length := by
    rw [← hanc, List.length_append]; omega
  have h := runFrom_longest t (splitpath path) K e hnoexact hget hpfx ⟨rr, hanc⟩ hmax
    (splitpath path).length hKlen le_rfl
  rw [List.take_length] at h
  unfold findlongestmatch
  exact h

theorem claim1_witness :
    findlongestmatch (Trie.set (Trie.set [] [] ⟨true, 5⟩) [['a']] ⟨true, 7⟩) ("/a/b") =
      ((⟨true, 7⟩ : muxEntry), true) :=
  claim1_longest_ancestor_wins _ _ [['a']] [['b']] ⟨true, 7⟩ (by decide) (by decide)
    (by decide)
    (by
      intro e1 h1
      rw [show Trie.get (Trie.set (Trie.set [] [] ⟨true, 5⟩) [['a']] ⟨true, 7⟩)
          (splitpath ("/a/b")) = none from by decide] at h1
      cases h1)
    (by
      intro K1 r1 e1 happ h1 hp1
      simp only [Trie.set, Trie.get] at h1
      by_cases hk1 : ([['a']] : Key) = K1
      · rw [← hk1]
      · rw [if_neg hk1] at h1
        by_cases hk2 : ([] : Key) = K1
        · rw [← hk2]; decide
        · rw [if_neg hk2] at h1
          cases h1)

/-- Claim C2: an entry stored at the full normalized path is returned
unconditionally, regardless of its prefix flag; in particular after
registering a prefix route and then an exact route at the same path,
`Register` has overwritten the former, and lookup returns the exact one. -/
theorem claim2_exact_entry_unconditional (m : Mux) (path : String) (A B : Nat)
    (t : Trie) (e : muxEntry)
    (hget : Trie.get t (splitpath path) = some e) :
    findlongestmatch t path = (e, true) ∧
      Mux.Lookup ((m.Register path true B).Register path false A) path = (A, true) := by
  constructor
  · unfold findlongestmatch
    exact runFrom_exact t (splitpath path) e hget
  · have h2 : Trie.get (((m.Register path true B).Register path false A).trie)
        (splitpath path) = some ⟨false, A⟩ := by
      simp only [Mux.Register]
      exact Trie.get_set_eq _ _ _
    have h3 : findlongestmatch (((m.Register path true B).Register path false A).trie)
        path = (⟨false, A⟩, true) := by
      unfold findlongestmatch
      exact runFrom_exact _ _ _ h2
    unfold Mux.Lookup
    rw [h3]

theorem claim2_witness :
    findlongestmatch (Trie.set [] (splitpath ("/foo")) ⟨false, 3⟩) ("/foo") =
      ((⟨false, 3⟩ : muxEntry), true) ∧
      Mux.Lookup ((NewMux.Register ("/foo") true 2).Register ("/foo") false 1) ("/foo") =
        (1, true) :=
  claim2_exact_entry_unconditional NewMux ("/foo") 1 2 _ _ (by decide)

/-- Claim C7: leading-slash spellings of a path normalize identically, the
root and the empty string normalize to the empty key, and lookups and
registrations through any of these spellings agree. -/
theorem claim7_normalization (P : String) (t : Trie) (m : Mux) (fl : Bool) (b : Nat) :
    splitpath ("/" ++ P) = splitpath P ∧
    splitpath ("///" ++ P) = splitpath P ∧
    splitpath ("/") = ([] : Key) ∧
    splitpath ("") = ([] : Key) ∧
    findlongestmatch t ("/" ++ P) = findlongestmatch t P ∧
    Mux.Register m ("/" ++ P) fl b = Mux.Register m P fl b := by
  refine ⟨splitpath_slash P, splitpath_slash3 P, by decide, by decide, ?_, ?_⟩
  · unfold findlongestmatch
    rw [splitpath_slash]
  · unfold Mux.Register
    rw [splitpath_slash]

/-- Claim C8 fails as stated: registering an exact route at `/foo` *does*
change the lookup result for the descendant `/foo/bar` when it overwrites an
existing prefix route at `/foo` (the overwrite of spec scenario S1). -/
theorem claim8_counterexample :
    findlongestmatch (Trie.set (Trie.set [] (splitpath ("/foo")) ⟨true, 1⟩)
        (splitpath ("/foo")) ⟨false, 2⟩) ("/foo/bar") ≠
      findlongestmatch (Trie.set [] (splitpath ("/foo")) ⟨true, 1⟩) ("/foo/bar") := by
  decide

/-- Claim C8 (amended): provided no prefix route is currently registered at
P, registering an exact route at P does not change the lookup result for any
proper descendant R — the search passes over the non-prefix entry and
continues to shorter ancestors or to absent. -/
theorem claim8_exact_no_shadow_amended (t : Trie) (P R : String) (b : Nat) (rr : Key)
    (hdesc : splitpath P ++ rr = splitpath R) (hrr : rr ≠ [])
    (hnopfx : ∀ e, Trie.get t (splitpath P) = some e → e.pfx = false) :
    findlongestmatch (Trie.set t (splitpath P) ⟨false, b⟩) R = findlongestmatch t R := by
  have hne : splitpath P ≠ splitpath R := by
    intro h
    have hlen := congrArg List.length hdesc
    rw [List.length_append] at hlen
    have hrrpos : 0 < rr.length := List.length_pos.mpr hrr
    rw [h] at hlen
    omega
  have h := runFrom_agree t (Trie.set t (splitpath P) ⟨false, b⟩) (splitpath P) (splitpath R)
    (fun k hk => Trie.get_set_ne t (splitpath P) k ⟨false, b⟩ hk)
    hnopfx
    (fun e he => by
      rw [Trie.get_set_eq] at he
      cases he
      rfl)
    hne
    (splitpath R).length le_rfl
  rw [List.take_length] at h
  unfold findlongestmatch
  exact h

theorem claim8_witness :
    findlongestmatch (Trie.set [] (splitpath ("/p")) ⟨false, 9⟩) ("/p/q") =
      findlongestmatch ([] : Trie) ("/p/q") :=
  claim8_exact_no_shadow_amended [] ("/p") ("/p/q") 9 [['q']] (by decide) (by decide)
    (fun e he => by
      rw [show Trie.get ([] : Trie) (splitpath ("/p")) = none from rfl] at he
      cases he)

/-- Claim C9: despite the always-true loop guard, `findlongestmatch`
terminates — from the full split path the loop body reaches a `done` state
within `length + 1` iterations (trying each left-anchored prefix from
longest to shortest, the empty sequence included), and stays there for any
larger iteration count, with the result of the function. -/
theorem claim9_termination (t : Trie) (path : String) (n : Nat)
    (hn : (splitpath path).length + 1 ≤ n) :
    (loopBody t (splitpath path))^[n] (LoopState.running (splitpath path)) =
      LoopState.done (findlongestmatch t path) := by
  have hbase := loop_reaches t (splitpath path) (splitpath path).length (splitpath path) rfl
  have hk : n = (n - ((splitpath path).length + 1)) + ((splitpath path).length + 1) := by
    omega
  rw [hk, Function.iterate_add_apply, hbase, loopBody_done]
  rfl

theorem claim9_witness :
    (loopBody (Trie.set [] [] ⟨true, 4⟩) (splitpath ("/a/b")))^[5]
        (LoopState.running (splitpath ("/a/b"))) =
      LoopState.done (findlongestmatch (Trie.set [] [] ⟨true, 4⟩) ("/a/b")) :=
  claim9_termination _ ("/a/b") 5 (by decide)

/-- Claim C10: on a lookup miss the id returned beside the false flag is 0,
the zero-value backend id of the zero `muxEntry` — and 0 is also the very first id
`AddBackend` allocates, so only the flag distinguishes a miss from a match
on backend 0. -/
theorem claim10_miss_returns_zero_id (m : Mux) (path : String) (u : URL)
    (hmiss : (m.Lookup path).2 = false) :
    (m.Lookup path).1 = 0 ∧
    (NewMux.AddBackend u).1 = 0 ∧
    Mux.GetBackend (NewMux.AddBackend u).2 0 = some ⟨u⟩ := by
  refine ⟨?_, rfl, rfl⟩
  have h2 : (runFrom m.trie (splitpath path) (splitpath path)).2 = false := hmiss
  have h1 := runFrom_miss_zero m.trie (splitpath path) (splitpath path).length
    (splitpath path) rfl h2
  show (runFrom m.trie (splitpath path) (splitpath path)).1.backendId = 0
  rw [h1]
  rfl

theorem claim10_witness :
    (Mux.Lookup NewMux ("/q")).1 = 0 ∧
    (NewMux.AddBackend ("http://b")).1 = 0 ∧
    Mux.GetBackend (NewMux.AddBackend ("http://b")).2 0 = some ⟨"http://b"⟩ :=
  claim10_miss_returns_zero_id NewMux ("/q") ("http://b") (by decide)

/-- Claim C3: if any terminal error occurs during a reload — `Open` fails,
`Applications()` or `Routes()` fails, or either iterator finished with a
non-nil `Err()` — the active mux after `ReloadRoutes` is exactly the mux
from before the reload; no partially built mux is published. -/
theorem claim3_reload_rollback (parse : String → Option URL) (rt : Router)
    (h : rt.stor.openErr ≠ none
      ∨ (∃ e, rt.stor.applications = Except.error e)
      ∨ (∃ it, rt.stor.applications = Except.ok it ∧ it.err ≠ none)
      ∨ (∃ e, rt.stor.routes = Except.error e)
      ∨ (∃ it, rt.stor.routes = Except.ok it ∧ it.err ≠ none)) :
    (ReloadRoutes parse rt).mux = rt.mux := by
  obtain ⟨e, he⟩ := reloadAttempt_error parse rt.stor h
  unfold ReloadRoutes
  rw [he]

theorem claim3_witness :
    (ReloadRoutes (fun _ => none)
        (Router.mk NewMux
          (Storage.mk (some ("boom")) (Except.ok ⟨[], none⟩) (Except.ok ⟨[], none⟩)))).mux =
      (Router.mk NewMux
        (Storage.mk (some ("boom")) (Except.ok ⟨[], none⟩) (Except.ok ⟨[], none⟩))).mux :=
  claim3_reload_rollback _ _ (Or.inl (by decide))

/-- Claim C4 fails as stated: a router that has never reloaded starts with
an *empty* mux (`NewRouter` installs `NewMux`), so a request is answered by
`http.NotFound` — status 404, not a 5xx-class response distinct from a
lookup miss. -/
theorem claim4_counterexample :
    Router.ServeHTTP
        (NewRouter (Storage.mk none (Except.ok ⟨[], none⟩) (Except.ok ⟨[], none⟩))) ("/x") =
      Response.notFound ∧
    notFoundStatus = 404 ∧ ¬(500 ≤ notFoundStatus ∧ notFoundStatus ≤ 599) := by
  refine ⟨by decide, rfl, by decide⟩

/-- Claim C4 (amended): before any reload has succeeded the Router serves
from the empty mux installed by `NewRouter`, so every request receives the
same 404 Not Found as a lookup miss; no distinct 503-style response is
produced. -/
theorem claim4_uninitialized_serves_404 (stor : Storage) (path : String) :
    Router.ServeHTTP (NewRouter stor) path = Response.notFound := by
  show Mux.ServeHTTP NewMux path = Response.notFound
  have hl : (Mux.Lookup NewMux path).2 = false := by
    show (runFrom ([] : Trie) (splitpath path) (splitpath path)).2 = false
    rw [runFrom_empty (splitpath path) (splitpath path).length (splitpath path) rfl]
  unfold Mux.ServeHTTP
  rw [hl]
  rfl

/-- Claim C5: a malformed backend URL is not fatal — the reload succeeds,
the offending application gets no backend, every application whose URL
parses is registered, and any route referencing the offending application id
is skipped by the routes pass. -/
theorem claim5_bad_url_skipped (parse : String → Option URL)
    (appIter : Iterator Application) (routeIter : Iterator Route) (a : Application)
    (ha : a ∈ appIter.records)
    (hbad : parse a.backendURL = none)
    (hall : ∀ b, b ∈ appIter.records → b.applicationId = a.applicationId →
      parse b.backendURL = none)
    (herr1 : appIter.err = none) (herr2 : routeIter.err = none) :
    reloadAttempt parse (Storage.mk none (Except.ok appIter) (Except.ok routeIter)) =
      Except.ok (applyRoutes (buildApps parse appIter.records []) routeIter.records NewMux) ∧
    assocFind (buildApps parse appIter.records []) a.applicationId = none ∧
    (∀ b u, b ∈ appIter.records → parse b.backendURL = some u →
      assocFind (buildApps parse appIter.records []) b.applicationId ≠ none) ∧
    (∀ r rest mux, Route.applicationId r = a.applicationId →
      applyRoutes (buildApps parse appIter.records []) (r :: rest) mux =
        applyRoutes (buildApps parse appIter.records []) rest mux) := by
  have h2 : assocFind (buildApps parse appIter.records []) a.applicationId = none :=
    buildApps_lookup_none parse a.applicationId appIter.records [] hall rfl
  refine ⟨?_, h2, ?_, ?_⟩
  · simp [reloadAttempt, loadApplications, loadRoutes, herr1, herr2]
  · intro b u hb hu
    exact buildApps_lookup_some parse appIter.records [] b u hb hu
  · intro r rest mux hr
    simp only [applyRoutes]
    rw [hr, h2]

theorem claim5_witness :
    reloadAttempt (fun s => if s = "://bad" then none else some s)
        (Storage.mk none
          (Except.ok ⟨[⟨"A", "://bad"⟩, ⟨"B", "http://b"⟩], none⟩)
          (Except.ok ⟨[⟨"/x", "A", "exact"⟩, ⟨"/y", "B", "exact"⟩], none⟩)) =
      Except.ok (applyRoutes
        (buildApps (fun s => if s = "://bad" then none else some s)
          [⟨"A", "://bad"⟩, ⟨"B", "http://b"⟩] [])
        [⟨"/x", "A", "exact"⟩, ⟨"/y", "B", "exact"⟩] NewMux) ∧
    assocFind (buildApps (fun s => if s = "://bad" then none else some s)
      [⟨"A", "://bad"⟩, ⟨"B", "http://b"⟩] []) ("A") = none ∧
    (∀ b u, b ∈ [(⟨"A", "://bad"⟩ : Application), ⟨"B", "http://b"⟩] →
      (if b.backendURL = "://bad" then none else some b.backendURL) = some u →
      assocFind (buildApps (fun s => if s = "://bad" then none else some s)
        [⟨"A", "://bad"⟩, ⟨"B", "http://b"⟩] []) b.applicationId ≠ none) ∧
    (∀ r rest mux, Route.applicationId r = "A" →
      applyRoutes (buildApps (fun s => if s = "://bad" then none else some s)
          [⟨"A", "://bad"⟩, ⟨"B", "http://b"⟩] []) (r :: rest) mux =
        applyRoutes (buildApps (fun s => if s = "://bad" then none else some s)
          [⟨"A", "://bad"⟩, ⟨"B", "http://b"⟩] []) rest mux) :=
  claim5_bad_url_skipped (fun s => if s = "://bad" then none else some s)
    ⟨[⟨"A", "://bad"⟩, ⟨"B", "http://b"⟩], none⟩
    ⟨[⟨"/x", "A", "exact"⟩, ⟨"/y", "B", "exact"⟩], none⟩
    ⟨"A", "://bad"⟩ (by decide) (by decide) (by decide) rfl rfl

/-- Claim C6: with the applications map fixed, a routes iterator that ends
without error loads successfully, registering exactly the valid routes (those
whose application id resolves) in order and skipping the dangling ones; the
K valid and J dangling routes partition the batch. -/
theorem claim6_dangling_routes_skipped (apps : List (String × ReverseProxy))
    (routeIter : Iterator Route) (mux : Mux) (herr : routeIter.err = none) :
    loadRoutes apps routeIter mux =
      Except.ok (applyRoutes apps (validRoutes apps routeIter.records) mux) ∧
    (validRoutes apps routeIter.records).length +
      (routeIter.records.filter
        (fun r => (assocFind apps r.applicationId).isNone)).length =
      routeIter.records.length := by
  refine ⟨?_, length_valid_invalid apps routeIter.records⟩
  unfold loadRoutes
  rw [herr]
  show Except.ok (applyRoutes apps routeIter.records mux) =
    Except.ok (applyRoutes apps (validRoutes apps routeIter.records) mux)
  rw [applyRoutes_filter]

theorem claim6_witness :
    loadRoutes ([("A", ⟨"http://a"⟩)] : List (String × ReverseProxy))
        ⟨[⟨"/x", "A", "exact"⟩, ⟨"/z", "Z", "prefix"⟩], none⟩ NewMux =
      Except.ok (applyRoutes ([("A", ⟨"http://a"⟩)] : List (String × ReverseProxy))
        (validRoutes ([("A", ⟨"http://a"⟩)] : List (String × ReverseProxy))
          [⟨"/x", "A", "exact"⟩, ⟨"/z", "Z", "prefix"⟩]) NewMux) ∧
    (validRoutes ([("A", ⟨"http://a"⟩)] : List (String × ReverseProxy))
        [⟨"/x", "A", "exact"⟩, ⟨"/z", "Z", "prefix"⟩]).length +
      ([(⟨"/x", "A", "exact"⟩ : Route), ⟨"/z", "Z", "prefix"⟩].filter
        (fun r => (assocFind ([("A", ⟨"http://a"⟩)] : List (String × ReverseProxy))
          r.applicationId).isNone)).length =
      ([(⟨"/x", "A", "exact"⟩ : Route), ⟨"/z", "Z", "prefix"⟩]).length :=
  claim6_dangling_routes_skipped _ _ _ rfl
